import Mathlib

/-!
Shallow embedding of the retained-metrics engine (`src/time_series.rs` and
`src/state.rs`) of the `envoyproxy` monitoring agent, together with theorems
settling the specification claims about it.

Modelling conventions:
* An instant (`chrono::DateTime<Utc>`) is modelled as the whole number of
  seconds since the Unix epoch, a plain `Int`.  For a positive divisor,
  Lean's `Int` division is floor division, which matches chrono's mapping
  from a timestamp to its calendar date/hour; 1970-01-01 was a Thursday,
  so the weekday index (Monday = 0) of day number `D` is `(D + 3) % 7`.
* A `BTreeMap` is modelled as an association list with strictly increasing
  keys; `TSMap.insert` is ordered insertion that overwrites an equal key,
  `TSMap.get?` is exact-key lookup, and collecting an iterator into a
  `BTreeMap` is modelled by `collectMap` (a fold of `TSMap.insert` starting
  from the empty map).
* `Utc::now()` is passed explicitly as a `now : Int` argument to the
  operations that read the ambient clock (`summary`, `maintain`).
* The `tokio::sync::RwLock` discipline of `AppState` is modelled by the
  reachability relation `Reachable`: each lock-guarded critical section of
  a writer (`update_state`) is one atomic step, and a reader (`history`)
  observes exactly one reachable state.
-/

/-- Model of `truncate_to_hour`: keep the date and hour, zero out minutes and
seconds (chrono `with_time(hour:0:0)`), i.e. floor to a multiple of 3600 s. -/
def truncate_to_hour (t : Int) : Int := 3600 * (t / 3600)

/-- Model of `truncate_to_day`: set the time of day to midnight
(chrono `with_time(0:0:0)`), i.e. floor to a multiple of 86400 s. -/
def truncate_to_day (t : Int) : Int := 86400 * (t / 86400)

/-- Model of chrono's `dt.weekday().number_from_monday()`: 1 for Monday
through 7 for Sunday.  Day number 0 (1970-01-01) was a Thursday, hence the
`+ 3` offset. -/
def number_from_monday (t : Int) : Int := (t / 86400 + 3) % 7 + 1

/-- Model of `truncate_to_week`: subtract `number_from_monday` days
(`TimeDelta::days`), then truncate to the day. -/
def truncate_to_week (t : Int) : Int :=
  truncate_to_day (t - 86400 * number_from_monday t)

/-- Model of the `Statistics` struct: aggregate of a bucket of points. -/
structure Statistics where
  average : Int
  count : Nat
  max : Option Int
  min : Option Int
deriving DecidableEq

/-- Model of the fold closure inside `Statistics::from_points`: the
accumulator is the `(sum, max, min, count)` tuple. -/
def Statistics.fold_step (acc : Int × Option Int × Option Int × Nat) (value : Int) :
    Int × Option Int × Option Int × Nat :=
  let sum := acc.1
  let mx := acc.2.1
  let mn := acc.2.2.1
  let count := acc.2.2.2
  let new_max : Option Int :=
    match mx with
    | none => some value
    | some v1 => if v1 < value then some value else some v1
  let new_min : Option Int :=
    match mn with
    | none => some value
    | some v1 => if v1 > value then some value else some v1
  (sum + value, new_max, new_min, count + 1)

/-- Model of `Statistics::from_points`: one `fold` computing the sum, the
running max and min, and the count, then `average = sum / count` with Rust's
truncating (toward zero) `i64` division, `Int.tdiv`. -/
def Statistics.from_points (values : List Int) : Statistics :=
  let r := values.foldl Statistics.fold_step
    ((0 : Int), (none : Option Int), (none : Option Int), (0 : Nat))
  { average := Int.tdiv r.1 (Int.ofNat r.2.2.2)
    count := r.2.2.2
    max := r.2.1
    min := r.2.2.1 }

namespace TSMap

/-- Ordered insertion into an association list with increasing keys,
overwriting an equal key: the model of `BTreeMap::insert`. -/
def insert {α : Type} : List (Int × α) → Int → α → List (Int × α)
  | [], k, v => [(k, v)]
  | (k1, v1) :: rest, k, v =>
    if k < k1 then (k, v) :: (k1, v1) :: rest
    else if k = k1 then (k, v) :: rest
    else (k1, v1) :: insert rest k v

/-- Exact-key lookup: the model of `BTreeMap::get`. -/
def get? {α : Type} : List (Int × α) → Int → Option α
  | [], _ => none
  | (k1, v1) :: rest, k => if k = k1 then some v1 else get? rest k

end TSMap

/-- Model of collecting an iterator of key-value pairs into a `BTreeMap`. -/
def collectMap (l : List (Int × Int)) : List (Int × Int) :=
  l.foldl (fun m p => TSMap.insert m p.1 p.2) []

/-- Keys strictly increasing: the representation invariant of the
association lists standing for `BTreeMap`s. -/
abbrev sortedKeys {α : Type} (l : List (Int × α)) : Prop :=
  List.Pairwise (fun a b => a.1 < b.1) l

/-- Model of the `TimeSeriesRow` struct: the raw series and the three
rollup stores. -/
structure TimeSeriesRow where
  raw_data : List (Int × Int)
  hourly_data : List (Int × Statistics)
  daily_data : List (Int × Statistics)
  weekly_data : List (Int × Statistics)
deriving DecidableEq

/-- Model of `TimeSeriesRow::default()`: all four maps empty. -/
def TimeSeriesRow.default : TimeSeriesRow := ⟨[], [], [], []⟩

/-- Model of the `schwartz` intermediate list in `aggregate_generic`: each
raw point decorated with its truncated instant. -/
def schwartzList (f : Int → Int) (raw_data : List (Int × Int)) :
    List (Int × Int × Int) :=
  raw_data.map (fun p => (f p.1, p.1, p.2))

/-- Model of the `current_values` map in `aggregate_generic`: the raw points
whose truncation equals `current_truncated`, collected into a `BTreeMap`. -/
def currentValuesMap (f : Int → Int) (raw_data : List (Int × Int))
    (current_truncated : Int) : List (Int × Int) :=
  collectMap
    (((schwartzList f raw_data).filter (fun x => x.1 == current_truncated)).map
      (fun x => x.2))

/-- Model of `TimeSeriesRow::aggregate_generic`: find the maximal truncated
instant among the raw points (`None` when there are no raw points), and
compute the `Statistics` of the points in that bucket. -/
def aggregate_generic (f : Int → Int) (raw_data : List (Int × Int)) :
    Option (Int × Statistics) :=
  match ((schwartzList f raw_data).map (fun x => x.1)).max? with
  | none => none
  | some current_truncated =>
      some (current_truncated,
        Statistics.from_points
          ((currentValuesMap f raw_data current_truncated).map (fun p => p.2)))

/-- Model of `TimeSeriesRow::aggregate`: insert the freshly aggregated
current bucket into each of the three rollup stores. -/
def TimeSeriesRow.aggregate (row : TimeSeriesRow) : TimeSeriesRow :=
  let row1 :=
    match aggregate_generic truncate_to_hour row.raw_data with
    | some (dt, stat) => { row with hourly_data := TSMap.insert row.hourly_data dt stat }
    | none => row
  let row2 :=
    match aggregate_generic truncate_to_day row1.raw_data with
    | some (dt, stat) => { row1 with daily_data := TSMap.insert row1.daily_data dt stat }
    | none => row1
  match aggregate_generic truncate_to_week row2.raw_data with
  | some (dt, stat) => { row2 with weekly_data := TSMap.insert row2.weekly_data dt stat }
  | none => row2

/-- Model of `TimeSeriesRow::append`: insert the raw point, then aggregate. -/
def TimeSeriesRow.append (row : TimeSeriesRow) (dt : Int) (datum : Int) :
    TimeSeriesRow :=
  TimeSeriesRow.aggregate { row with raw_data := TSMap.insert row.raw_data dt datum }

/-- Model of the `TimeSeriesSummary` struct. -/
structure TimeSeriesSummary where
  hour : Option Statistics
  day : Option Statistics
  week : Option Statistics
  last_24h : List (Int × Int)
deriving DecidableEq

/-- Model of `TimeSeriesRow::summary` (a `&self` read, hence a pure function
of the row): look up the bucket of `now` in each rollup store, and collect
into `last_24h` every hourly entry at most one day old, mapped to its
average. -/
def TimeSeriesRow.summary (row : TimeSeriesRow) (now : Int) : TimeSeriesSummary :=
  let hour := TSMap.get? row.hourly_data (truncate_to_hour now)
  let day := TSMap.get? row.daily_data (truncate_to_day now)
  let week := TSMap.get? row.weekly_data (truncate_to_week now)
  let yesterday := now - 86400
  let last_24h := collectMap
    (row.hourly_data.filterMap
      (fun p => if yesterday ≤ p.1 then some (p.1, p.2.average) else none))
  ⟨hour, day, week, last_24h⟩

/-- Model of `TimeSeriesRow::maintain`: retain only the raw points at least
as recent as `now` minus 14 days. -/
def TimeSeriesRow.maintain (row : TimeSeriesRow) (now : Int) : TimeSeriesRow :=
  let threshold := now - 14 * 86400
  { row with raw_data := row.raw_data.filter (fun p => threshold ≤ p.1) }

/-- Model of the `SystemState` struct fetched from the device API. -/
structure SystemState where
  last_update : Option Int
  battery_soc : Nat
  pv_mw : Int
  storage_mw : Int
  grid_mw : Int
  load_mw : Int
  production_mwh_today : Int
  consumption_mwh_today : Int
deriving DecidableEq

/-- Model of `SystemState::default()`. -/
def SystemState.default : SystemState := ⟨none, 0, 0, 0, 0, 0, 0, 0⟩

/-- Model of the `TimeSeriesData` struct: one row per tracked metric. -/
structure TimeSeriesData where
  pv_mw : TimeSeriesRow
  storage_mw : TimeSeriesRow
  load_mw : TimeSeriesRow
  grid_mw : TimeSeriesRow
deriving DecidableEq

/-- Model of `TimeSeriesData::default()`. -/
def TimeSeriesData.default : TimeSeriesData :=
  ⟨TimeSeriesRow.default, TimeSeriesRow.default, TimeSeriesRow.default, TimeSeriesRow.default⟩

/-- Model of the `HistoryResponse` struct. -/
structure HistoryResponse where
  pv_mw : TimeSeriesSummary
  grid_mw : TimeSeriesSummary
  load_mw : TimeSeriesSummary
  storage_mw : TimeSeriesSummary
deriving DecidableEq

/-- Model of the lock-guarded shared state of `AppState` (the HTTP client is
irrelevant to the engine and omitted). -/
structure AppStateM where
  system_state : SystemState
  time_series : TimeSeriesData
deriving DecidableEq

/-- The state at process start: everything default-initialised. -/
def AppStateM.initial : AppStateM := ⟨SystemState.default, TimeSeriesData.default⟩

/-- Model of `AppState::history`: read all four summaries under a single
shared-lock acquisition (a pure read of one state). -/
def AppStateM.history (st : AppStateM) (now : Int) : HistoryResponse :=
  let ts := st.time_series
  ⟨ts.pv_mw.summary now, ts.grid_mw.summary now, ts.load_mw.summary now,
    ts.storage_mw.summary now⟩

/-- Model of `AppState::update_state`: if the fetched state has no
`last_update` timestamp, return immediately; otherwise append the sample to
all four series under one exclusive-lock acquisition and store the new
`SystemState`. -/
def AppStateM.update_state (st : AppStateM) (new_state : SystemState) : AppStateM :=
  match new_state.last_update with
  | none => st
  | some dt =>
      let ts := st.time_series
      let ts1 := { ts with pv_mw := ts.pv_mw.append dt new_state.pv_mw }
      let ts2 := { ts1 with grid_mw := ts1.grid_mw.append dt new_state.grid_mw }
      let ts3 := { ts2 with load_mw := ts2.load_mw.append dt new_state.load_mw }
      let ts4 := { ts3 with storage_mw := ts3.storage_mw.append dt new_state.storage_mw }
      { st with time_series := ts4, system_state := new_state }

/-- Model of `AppState::maintain`: prune all four series under one
exclusive-lock acquisition. -/
def AppStateM.maintain (st : AppStateM) (now : Int) : AppStateM :=
  let ts := st.time_series
  { st with time_series :=
      ⟨ts.pv_mw.maintain now, ts.storage_mw.maintain now,
        ts.load_mw.maintain now, ts.grid_mw.maintain now⟩ }

/-- States of the shared bundle observable by a reader: each lock-guarded
writer critical section (`update_state`) is one atomic step, so a reader
holding the shared lock sees exactly one state of this relation. -/
inductive Reachable : AppStateM → Prop where
  | init : Reachable AppStateM.initial
  | step (st : AppStateM) (new_state : SystemState) :
      Reachable st → Reachable (st.update_state new_state)

/-- Claim-side description of the current bucket key: the maximum over all
stored raw instants of their truncation. -/
def bucketKey (f : Int → Int) (raw_data : List (Int × Int)) : Option Int :=
  (raw_data.map (fun p => f p.1)).max?

/-- Claim-side description of a bucket's contents: the values of exactly
those raw points whose truncated instant equals `c`. -/
def bucketPoints (f : Int → Int) (raw_data : List (Int × Int)) (c : Int) :
    List Int :=
  (raw_data.filter (fun p => f p.1 == c)).map (fun p => p.2)

/-- Modelled from the spec: days since the most recent Monday, `0` if the
instant falls on a Monday (chrono's `num_days_from_monday`), used only to
state what the specification asserts `truncate_to_week` computes. -/
def num_days_from_monday (t : Int) : Int := (t / 86400 + 3) % 7

/-- Modelled from the spec: the week truncation the specification describes,
`truncate_day(t - (days since most recent Monday))`, i.e. midnight of the
Monday starting the week containing `t`. -/
def truncate_to_week_claim (t : Int) : Int :=
  truncate_to_day (t - 86400 * num_days_from_monday t)

namespace TSMap

theorem insert_ne_nil {α : Type} (m : List (Int × α)) (k : Int) (v : α) :
    insert m k v ≠ [] := by
  match m with
  | [] => simp [insert]
  | (k1, v1) :: rest =>
      unfold insert
      split
      · simp
      · split <;> simp

theorem get?_insert_self {α : Type} (m : List (Int × α)) (k : Int) (v : α) :
    get? (insert m k v) k = some v := by
  induction m with
  | nil => simp [insert, get?]
  | cons p rest ih =>
      obtain ⟨k1, v1⟩ := p
      unfold insert
      by_cases h1 : k < k1
      · simp [h1, get?]
      · by_cases h2 : k = k1
        · simp [h1, h2, get?]
        · simp [h1, h2, get?, ih]

theorem get?_insert_ne {α : Type} (m : List (Int × α)) (k k2 : Int) (v : α)
    (hne : k2 ≠ k) : get? (insert m k v) k2 = get? m k2 := by
  induction m with
  | nil => simp [insert, get?, hne]
  | cons p rest ih =>
      obtain ⟨k1, v1⟩ := p
      unfold insert
      by_cases h1 : k < k1
      · simp [h1, get?, hne]
      · by_cases h2 : k = k1
        · subst h2
          simp [h1, get?, hne]
        · by_cases h3 : k2 = k1
          · simp [h1, h2, h3, get?]
          · simp [h1, h2, h3, get?, ih]

theorem mem_insert {α : Type} (m : List (Int × α)) (k : Int) (v : α)
    (p : Int × α) (hp : p ∈ insert m k v) : p.1 = k ∨ p ∈ m := by
  induction m with
  | nil =>
      simp [insert] at hp
      subst hp
      left
      rfl
  | cons q rest ih =>
      obtain ⟨k1, v1⟩ := q
      unfold insert at hp
      by_cases h1 : k < k1
      · rw [if_pos h1] at hp
        rcases List.mem_cons.mp hp with h | h
        · subst h; left; rfl
        · right; exact h
      · by_cases h2 : k = k1
        · rw [if_neg h1, if_pos h2] at hp
          rcases List.mem_cons.mp hp with h | h
          · subst h; left; rfl
          · right; exact List.mem_cons_of_mem _ h
        · rw [if_neg h1, if_neg h2] at hp
          rcases List.mem_cons.mp hp with h | h
          · right; rw [h]; exact List.mem_cons_self _ _
          · rcases ih h with h3 | h3
            · left; exact h3
            · right; exact List.mem_cons_of_mem _ h3

theorem sortedKeys_insert {α : Type} (m : List (Int × α)) (k : Int) (v : α)
    (h : sortedKeys m) : sortedKeys (insert m k v) := by
  induction m with
  | nil => simp [insert, sortedKeys]
  | cons q rest ih =>
      obtain ⟨k1, v1⟩ := q
      obtain ⟨hall, hrest⟩ := List.pairwise_cons.mp h
      unfold insert
      by_cases h1 : k < k1
      · rw [if_pos h1]
        refine List.pairwise_cons.mpr ⟨?_, List.pairwise_cons.mpr ⟨hall, hrest⟩⟩
        intro q hq
        rcases List.mem_cons.mp hq with h2 | h2
        · rw [h2]; exact h1
        · exact lt_trans h1 (hall q h2)
      · by_cases h2 : k = k1
        · rw [if_neg h1, if_pos h2]
          subst h2
          exact List.pairwise_cons.mpr ⟨hall, hrest⟩
        · rw [if_neg h1, if_neg h2]
          have h3 : k1 < k := by omega
          refine List.pairwise_cons.mpr ⟨?_, ih hrest⟩
          intro q hq
          rcases mem_insert rest k v q hq with h4 | h4
          · rw [h4]; exact h3
          · exact hall q h4

theorem insert_append_last {α : Type} (m : List (Int × α)) (k : Int) (v : α)
    (h : ∀ p ∈ m, p.1 < k) : insert m k v = m ++ [(k, v)] := by
  induction m with
  | nil => simp [insert]
  | cons p rest ih =>
      obtain ⟨k1, v1⟩ := p
      have hk1 : k1 < k := h (k1, v1) (List.mem_cons_self _ _)
      have h1 : ¬ k < k1 := by omega
      have h2 : ¬ k = k1 := by omega
      unfold insert
      rw [if_neg h1, if_neg h2, List.cons_append]
      exact congrArg _ (ih (fun q hq => h q (List.mem_cons_of_mem _ hq)))

end TSMap

theorem collectMap_go_sorted (l m : List (Int × Int))
    (h : sortedKeys (m ++ l)) :
    List.foldl (fun acc p => TSMap.insert acc p.1 p.2) m l = m ++ l := by
  induction l generalizing m with
  | nil => simp
  | cons x rest ih =>
      have hparts := List.pairwise_append.mp h
      have hx : ∀ p ∈ m, p.1 < x.1 :=
        fun p hp => hparts.2.2 p hp x (List.mem_cons_self _ _)
      have hstep : TSMap.insert m x.1 x.2 = m ++ [x] :=
        TSMap.insert_append_last m x.1 x.2 hx
      rw [List.foldl_cons, hstep]
      have h2 : sortedKeys ((m ++ [x]) ++ rest) := by
        rw [List.append_assoc]
        exact h
      rw [ih (m ++ [x]) h2, List.append_assoc]
      rfl

theorem collectMap_eq_self (l : List (Int × Int)) (h : sortedKeys l) :
    collectMap l = l :=
  collectMap_go_sorted l [] h

theorem collectMap_ne_nil_go (l m : List (Int × Int))
    (h : m ≠ [] ∨ l ≠ []) :
    List.foldl (fun acc p => TSMap.insert acc p.1 p.2) m l ≠ [] := by
  induction l generalizing m with
  | nil =>
      rcases h with h | h
      · simpa using h
      · simp at h
  | cons x rest ih =>
      rw [List.foldl_cons]
      exact ih (TSMap.insert m x.1 x.2) (Or.inl (TSMap.insert_ne_nil m x.1 x.2))

theorem collectMap_ne_nil (l : List (Int × Int)) (h : l ≠ []) :
    collectMap l ≠ [] :=
  collectMap_ne_nil_go l [] (Or.inr h)

theorem get?_filter_ge {α : Type} (l : List (Int × α)) (th k : Int) :
    TSMap.get? (l.filter (fun p => th ≤ p.1)) k =
      if th ≤ k then TSMap.get? l k else none := by
  induction l with
  | nil => simp [TSMap.get?]
  | cons p rest ih =>
      obtain ⟨k1, v1⟩ := p
      by_cases h1 : th ≤ k1
      · rw [List.filter_cons_of_pos (by simpa using h1)]
        by_cases h2 : k = k1
        · subst h2
          simp [TSMap.get?, h1]
        · simp only [TSMap.get?, if_neg h2]
          exact ih
      · rw [List.filter_cons_of_neg (by simpa using h1)]
        by_cases h2 : k = k1
        · subst h2
          rw [ih, if_neg h1]
          simp [TSMap.get?, h1]
        · rw [ih]
          by_cases h3 : th ≤ k
          · simp [TSMap.get?, h2, h3]
          · simp [h3]

theorem get?_map_val {α β : Type} (l : List (Int × α)) (g : α → β) (k : Int) :
    TSMap.get? (l.map (fun p => (p.1, g p.2))) k =
      Option.map g (TSMap.get? l k) := by
  induction l with
  | nil => simp [TSMap.get?]
  | cons p rest ih =>
      obtain ⟨k1, v1⟩ := p
      by_cases h : k = k1
      · simp [TSMap.get?, h]
      · simp [TSMap.get?, h, ih]

theorem filterMap_window (hd : List (Int × Statistics)) (y : Int) :
    hd.filterMap (fun p => if y ≤ p.1 then some (p.1, p.2.average) else none) =
      (hd.filter (fun p => y ≤ p.1)).map (fun p => (p.1, p.2.average)) := by
  induction hd with
  | nil => simp
  | cons p rest ih =>
      by_cases h : y ≤ p.1
      · rw [List.filterMap_cons, List.filter_cons_of_pos (by simpa using h)]
        simp [h, ih]
      · rw [List.filterMap_cons, List.filter_cons_of_neg (by simpa using h)]
        simp [h, ih]

theorem fold_step_go (l : List Int) (s m n : Int) (c : Nat) :
    l.foldl Statistics.fold_step (s, some m, some n, c) =
      (s + l.sum, some (l.foldl max m), some (l.foldl min n), c + l.length) := by
  induction l generalizing s m n c with
  | nil => simp
  | cons v rest ih =>
      have hmax : (if m < v then some v else some m) = some (max m v) := by
        by_cases h : m < v
        · rw [if_pos h, max_eq_right (le_of_lt h)]
        · rw [if_neg h, max_eq_left (by omega)]
      have hmin : (if n > v then some v else some n) = some (min n v) := by
        by_cases h : n > v
        · rw [if_pos h, min_eq_right (le_of_lt h)]
        · rw [if_neg h, min_eq_left (by omega)]
      have hstep : Statistics.fold_step (s, some m, some n, c) v =
          (s + v, some (max m v), some (min n v), c + 1) := by
        simp only [Statistics.fold_step]
        rw [hmax, hmin]
      rw [List.foldl_cons, hstep, ih]
      simp only [List.sum_cons, List.foldl_cons, List.length_cons, Prod.mk.injEq,
        true_and, and_true]
      constructor <;> omega

theorem from_points_eq (l : List Int) (h : l ≠ []) :
    Statistics.from_points l =
      { average := Int.tdiv l.sum (Int.ofNat l.length), count := l.length,
        max := l.max?, min := l.min? } := by
  match l, h with
  | v :: rest, _ =>
      unfold Statistics.from_points
      rw [List.foldl_cons]
      have hstep : Statistics.fold_step (0, none, none, 0) v = (v, some v, some v, 1) := by
        simp [Statistics.fold_step]
      rw [hstep, fold_step_go]
      simp only [List.sum_cons, List.length_cons, List.max?, List.min?, Statistics.mk.injEq,
        true_and, and_true]
      have h1 : (1 : Nat) + rest.length = rest.length + 1 := by omega
      rw [h1]
      simp

theorem schwartz_keys (f : Int → Int) (raw : List (Int × Int)) :
    (schwartzList f raw).map (fun x => x.1) = raw.map (fun p => f p.1) := by
  simp [schwartzList, List.map_map]

theorem aggregate_generic_eq_some (f : Int → Int) (raw : List (Int × Int))
    (h : raw ≠ []) :
    ∃ c, bucketKey f raw = some c ∧
      aggregate_generic f raw =
        some (c, Statistics.from_points
          ((currentValuesMap f raw c).map (fun p => p.2))) := by
  have hne : raw.map (fun p => f p.1) ≠ [] := by simpa using h
  rcases hmax : (raw.map (fun p => f p.1)).max? with _ | c
  · exact absurd (List.max?_eq_none_iff.mp hmax) hne
  · refine ⟨c, hmax, ?_⟩
    unfold aggregate_generic
    rw [schwartz_keys, hmax]

theorem currentValuesMap_inner (f : Int → Int) (raw : List (Int × Int)) (c : Int) :
    ((schwartzList f raw).filter (fun x => x.1 == c)).map (fun x => x.2) =
      raw.filter (fun p => f p.1 == c) := by
  unfold schwartzList
  rw [List.filter_map, List.map_map]
  exact List.map_id _

theorem currentValuesMap_eq_filter (f : Int → Int) (raw : List (Int × Int)) (c : Int)
    (h : sortedKeys raw) :
    currentValuesMap f raw c = raw.filter (fun p => f p.1 == c) := by
  unfold currentValuesMap
  rw [currentValuesMap_inner]
  exact collectMap_eq_self _ (h.sublist (List.filter_sublist raw))

theorem currentValuesMap_ne_nil (f : Int → Int) (raw : List (Int × Int)) (c : Int)
    (h : bucketKey f raw = some c) :
    (currentValuesMap f raw c).map (fun p => p.2) ≠ [] := by
  have hc : c ∈ raw.map (fun p => f p.1) := List.max?_mem max_choice h
  obtain ⟨p, hp, hpc⟩ := List.mem_map.mp hc
  have hmem : p ∈ raw.filter (fun p => f p.1 == c) :=
    List.mem_filter.mpr ⟨hp, by simpa using hpc⟩
  have hfil : raw.filter (fun p => f p.1 == c) ≠ [] :=
    fun hnil => by rw [hnil] at hmem; exact absurd hmem (List.not_mem_nil p)
  have hinner : ((schwartzList f raw).filter (fun x => x.1 == c)).map (fun x => x.2) ≠ [] := by
    rw [currentValuesMap_inner]
    exact hfil
  have hcoll : currentValuesMap f raw c ≠ [] := collectMap_ne_nil _ hinner
  simpa using hcoll

theorem append_parts (row : TimeSeriesRow) (dt v : Int) :
    ∃ ch sh cd sd cw sw,
      bucketKey truncate_to_hour (TSMap.insert row.raw_data dt v) = some ch ∧
      bucketKey truncate_to_day (TSMap.insert row.raw_data dt v) = some cd ∧
      bucketKey truncate_to_week (TSMap.insert row.raw_data dt v) = some cw ∧
      row.append dt v =
        { raw_data := TSMap.insert row.raw_data dt v
          hourly_data := TSMap.insert row.hourly_data ch sh
          daily_data := TSMap.insert row.daily_data cd sd
          weekly_data := TSMap.insert row.weekly_data cw sw } := by
  have hne := TSMap.insert_ne_nil row.raw_data dt v
  obtain ⟨ch, hch, hgh⟩ := aggregate_generic_eq_some truncate_to_hour _ hne
  obtain ⟨cd, hcd, hgd⟩ := aggregate_generic_eq_some truncate_to_day _ hne
  obtain ⟨cw, hcw, hgw⟩ := aggregate_generic_eq_some truncate_to_week _ hne
  refine ⟨ch,
    Statistics.from_points
      ((currentValuesMap truncate_to_hour (TSMap.insert row.raw_data dt v) ch).map
        (fun p => p.2)),
    cd,
    Statistics.from_points
      ((currentValuesMap truncate_to_day (TSMap.insert row.raw_data dt v) cd).map
        (fun p => p.2)),
    cw,
    Statistics.from_points
      ((currentValuesMap truncate_to_week (TSMap.insert row.raw_data dt v) cw).map
        (fun p => p.2)),
    hch, hcd, hcw, ?_⟩
  unfold TimeSeriesRow.append TimeSeriesRow.aggregate
  simp only [hgh, hgd, hgw]

theorem append_raw_data (row : TimeSeriesRow) (dt v : Int) :
    (row.append dt v).raw_data = TSMap.insert row.raw_data dt v := by
  obtain ⟨ch, sh, cd, sd, cw, sw, _, _, _, heq⟩ := append_parts row dt v
  rw [heq]

theorem append_rollups (row : TimeSeriesRow) (dt v : Int) (h : sortedKeys row.raw_data) :
    ∃ ch cd cw,
      bucketKey truncate_to_hour (TSMap.insert row.raw_data dt v) = some ch ∧
      bucketKey truncate_to_day (TSMap.insert row.raw_data dt v) = some cd ∧
      bucketKey truncate_to_week (TSMap.insert row.raw_data dt v) = some cw ∧
      row.append dt v =
        { raw_data := TSMap.insert row.raw_data dt v
          hourly_data := TSMap.insert row.hourly_data ch
            (Statistics.from_points
              (bucketPoints truncate_to_hour (TSMap.insert row.raw_data dt v) ch))
          daily_data := TSMap.insert row.daily_data cd
            (Statistics.from_points
              (bucketPoints truncate_to_day (TSMap.insert row.raw_data dt v) cd))
          weekly_data := TSMap.insert row.weekly_data cw
            (Statistics.from_points
              (bucketPoints truncate_to_week (TSMap.insert row.raw_data dt v) cw)) } := by
  have hne := TSMap.insert_ne_nil row.raw_data dt v
  have hs := TSMap.sortedKeys_insert row.raw_data dt v h
  obtain ⟨ch, hch, hgh⟩ := aggregate_generic_eq_some truncate_to_hour _ hne
  obtain ⟨cd, hcd, hgd⟩ := aggregate_generic_eq_some truncate_to_day _ hne
  obtain ⟨cw, hcw, hgw⟩ := aggregate_generic_eq_some truncate_to_week _ hne
  rw [currentValuesMap_eq_filter _ _ _ hs] at hgh hgd hgw
  refine ⟨ch, cd, cw, hch, hcd, hcw, ?_⟩
  unfold TimeSeriesRow.append TimeSeriesRow.aggregate
  simp only [hgh, hgd, hgw, bucketPoints]

/-- Effect of an ordered-map insertion on the key list alone, used to show
that inserting the same instant into several maps keeps their key lists
equal. -/
def keyIns : List Int → Int → List Int
  | [], k => [k]
  | k1 :: rest, k =>
    if k < k1 then k :: k1 :: rest
    else if k = k1 then k :: rest
    else k1 :: keyIns rest k

theorem keys_insert {α : Type} (m : List (Int × α)) (k : Int) (v : α) :
    (TSMap.insert m k v).map Prod.fst = keyIns (m.map Prod.fst) k := by
  induction m with
  | nil => simp [TSMap.insert, keyIns]
  | cons p rest ih =>
      obtain ⟨k1, v1⟩ := p
      rw [List.map_cons]
      unfold TSMap.insert keyIns
      by_cases h1 : k < k1
      · simp [h1]
      · by_cases h2 : k = k1
        · simp [h1, h2]
        · simp [h1, h2, ih]

theorem sorted_map_avg (hd : List (Int × Statistics)) (y : Int) (h : sortedKeys hd) :
    sortedKeys ((hd.filter (fun p => y ≤ p.1)).map (fun p => (p.1, p.2.average))) :=
  List.pairwise_map.mpr (h.sublist (List.filter_sublist hd))

/-- Claim C2, counterexample: at t = 345600 s (Monday 1970-01-05 00:00 UTC) the
claim would require `truncate_to_week` to subtract 0 days and return Monday
midnight itself, but the code subtracts `number_from_monday = 1` day and
returns Sunday 1970-01-04 00:00 UTC. -/
theorem c2_counterexample :
    truncate_to_week 345600 ≠ truncate_to_week_claim 345600 ∧
    truncate_to_week 345600 = 259200 ∧ truncate_to_week_claim 345600 = 345600 := by
  refine ⟨by decide, by decide, by decide⟩

/-- Claim C2 (amended): `truncate_to_week t` equals
`truncate_to_day (t - d days)` where `d = number_from_monday t`, which is one
MORE than the days since the most recent Monday (1 when t is a Monday, …, 7
when t is a Sunday); equivalently, the result is always exactly one day
before the midnight starting the Monday-based week containing `t`, i.e. the
midnight of the preceding Sunday. -/
theorem c2_week_truncation_amended (t : Int) :
    number_from_monday t = num_days_from_monday t + 1 ∧
    truncate_to_week t = truncate_to_week_claim t - 86400 := by
  constructor
  · rfl
  · unfold truncate_to_week truncate_to_week_claim truncate_to_day
      number_from_monday num_days_from_monday
    omega

/-- Claim C3, counterexample: `truncate_to_week` is not idempotent; applied to its
own output at t = 345600 it shifts a further 7 days back. -/
theorem c3_counterexample :
    ¬ (truncate_to_week (truncate_to_week 345600) = truncate_to_week 345600) := by
  decide

/-- Claim C3 (amended): `truncate_to_hour` and `truncate_to_day` are idempotent and
monotonic, and `truncate_to_week` is monotonic; but `truncate_to_week` is NOT
idempotent: its result is always a Sunday midnight (a day-truncated instant
whose days-since-Monday index is 6), reapplying it subtracts a further 7
days (`truncate_to_week (truncate_to_week t) = truncate_to_week t - 7 days`),
and in particular idempotence fails. -/
theorem c3_truncation_amended :
    (∀ t : Int, truncate_to_hour (truncate_to_hour t) = truncate_to_hour t) ∧
    (∀ t : Int, truncate_to_day (truncate_to_day t) = truncate_to_day t) ∧
    (∀ t1 t2 : Int, t1 ≤ t2 → truncate_to_hour t1 ≤ truncate_to_hour t2) ∧
    (∀ t1 t2 : Int, t1 ≤ t2 → truncate_to_day t1 ≤ truncate_to_day t2) ∧
    (∀ t1 t2 : Int, t1 ≤ t2 → truncate_to_week t1 ≤ truncate_to_week t2) ∧
    (∀ t : Int, truncate_to_day (truncate_to_week t) = truncate_to_week t ∧
      num_days_from_monday (truncate_to_week t) = 6) ∧
    (∀ t : Int, truncate_to_week (truncate_to_week t) = truncate_to_week t - 7 * 86400) ∧
    ¬ (∀ t : Int, truncate_to_week (truncate_to_week t) = truncate_to_week t) := by
  refine ⟨?_, ?_, ?_, ?_, ?_, ?_, ?_, ?_⟩
  · intro t; unfold truncate_to_hour; omega
  · intro t; unfold truncate_to_day; omega
  · intro t1 t2 h; unfold truncate_to_hour; omega
  · intro t1 t2 h; unfold truncate_to_day; omega
  · intro t1 t2 h
    unfold truncate_to_week truncate_to_day number_from_monday
    omega
  · intro t
    unfold truncate_to_week truncate_to_day number_from_monday num_days_from_monday
    constructor <;> omega
  · intro t
    unfold truncate_to_week truncate_to_day number_from_monday
    omega
  · exact fun hall => absurd (hall 345600) (by decide)

/-- Witness for C3 (amended): the monotonicity hypotheses are satisfiable at
the concrete pair 0 ≤ 5000. -/
theorem c3_witness :
    (0 : Int) ≤ 5000 ∧ truncate_to_hour 0 ≤ truncate_to_hour 5000 ∧
      truncate_to_day 0 ≤ truncate_to_day 5000 ∧
      truncate_to_week 0 ≤ truncate_to_week 5000 :=
  ⟨by decide, c3_truncation_amended.2.2.1 0 5000 (by decide),
    c3_truncation_amended.2.2.2.1 0 5000 (by decide),
    c3_truncation_amended.2.2.2.2.1 0 5000 (by decide)⟩

/-- Claim C5: on a non-empty collection, `Statistics::from_points` returns the
count of values, the smallest and largest value, and the truncating integer
division of the sum by the count; in particular {5, 10, 15} yields
{average 10, count 3, min 5, max 15} and {7} yields
{average 7, count 1, min 7, max 7}. -/
theorem c5_from_points (l : List Int) (h : l ≠ []) :
    Statistics.from_points l =
      { average := Int.tdiv l.sum (Int.ofNat l.length), count := l.length,
        max := l.max?, min := l.min? } ∧
    Statistics.from_points [5, 10, 15] =
      { average := 10, count := 3, max := some 15, min := some 5 } ∧
    Statistics.from_points [7] =
      { average := 7, count := 1, max := some 7, min := some 7 } :=
  ⟨from_points_eq l h, by decide, by decide⟩

/-- Witness for C5 at the concrete non-empty list [5, 10, 15]. -/
theorem c5_witness :
    ([5, 10, 15] : List Int) ≠ [] ∧
    Statistics.from_points [5, 10, 15] =
      { average := Int.tdiv (List.sum [5, 10, 15]) (Int.ofNat (List.length [5, 10, 15]))
        count := List.length [5, 10, 15]
        max := List.max? [5, 10, 15]
        min := List.min? [5, 10, 15] } :=
  ⟨by decide, (c5_from_points [5, 10, 15] (by decide)).1⟩

/-- Claim C6: `maintain` removes exactly the raw points strictly older than 14
days before `now` (a lookup of any younger key is unchanged, any strictly
older key is gone), leaves all three rollup stores unchanged, and is
idempotent for a fixed `now`. -/
theorem c6_maintain (row : TimeSeriesRow) (now k : Int) :
    TSMap.get? (row.maintain now).raw_data k =
      (if k < now - 14 * 86400 then none else TSMap.get? row.raw_data k) ∧
    (row.maintain now).hourly_data = row.hourly_data ∧
    (row.maintain now).daily_data = row.daily_data ∧
    (row.maintain now).weekly_data = row.weekly_data ∧
    (row.maintain now).maintain now = row.maintain now := by
  refine ⟨?_, rfl, rfl, rfl, ?_⟩
  · show TSMap.get? (row.raw_data.filter (fun p => now - 14 * 86400 ≤ p.1)) k = _
    rw [get?_filter_ge]
    by_cases hk : k < now - 14 * 86400
    · rw [if_neg (by omega), if_pos hk]
    · rw [if_pos (by omega), if_neg hk]
  · unfold TimeSeriesRow.maintain
    simp [List.filter_filter]

/-- Claim C1: after `append(dt, v)` from any prior state (hence under any sequence
of appends, out-of-order ones included), each rollup store equals the old
store with one insertion at the key `current` = the maximum truncation over
ALL stored raw instants (not necessarily the bucket of the appended sample),
whose value is the `Statistics` of exactly the raw points truncating to
`current`; the lookup at `current` returns that value, and the raw series is
the old one with `(dt, v)` inserted. -/
theorem c1_append_recomputes_current_bucket (row : TimeSeriesRow) (dt v : Int)
    (h : sortedKeys row.raw_data) :
    ∃ ch cd cw,
      bucketKey truncate_to_hour (TSMap.insert row.raw_data dt v) = some ch ∧
      bucketKey truncate_to_day (TSMap.insert row.raw_data dt v) = some cd ∧
      bucketKey truncate_to_week (TSMap.insert row.raw_data dt v) = some cw ∧
      (row.append dt v).hourly_data =
        TSMap.insert row.hourly_data ch
          (Statistics.from_points
            (bucketPoints truncate_to_hour (TSMap.insert row.raw_data dt v) ch)) ∧
      (row.append dt v).daily_data =
        TSMap.insert row.daily_data cd
          (Statistics.from_points
            (bucketPoints truncate_to_day (TSMap.insert row.raw_data dt v) cd)) ∧
      (row.append dt v).weekly_data =
        TSMap.insert row.weekly_data cw
          (Statistics.from_points
            (bucketPoints truncate_to_week (TSMap.insert row.raw_data dt v) cw)) ∧
      TSMap.get? (row.append dt v).hourly_data ch =
        some (Statistics.from_points
          (bucketPoints truncate_to_hour (TSMap.insert row.raw_data dt v) ch)) ∧
      TSMap.get? (row.append dt v).daily_data cd =
        some (Statistics.from_points
          (bucketPoints truncate_to_day (TSMap.insert row.raw_data dt v) cd)) ∧
      TSMap.get? (row.append dt v).weekly_data cw =
        some (Statistics.from_points
          (bucketPoints truncate_to_week (TSMap.insert row.raw_data dt v) cw)) ∧
      (row.append dt v).raw_data = TSMap.insert row.raw_data dt v := by
  obtain ⟨ch, cd, cw, hch, hcd, hcw, heq⟩ := append_rollups row dt v h
  refine ⟨ch, cd, cw, hch, hcd, hcw, ?_, ?_, ?_, ?_, ?_, ?_, ?_⟩
  · rw [heq]
  · rw [heq]
  · rw [heq]
  · rw [heq]; exact TSMap.get?_insert_self _ _ _
  · rw [heq]; exact TSMap.get?_insert_self _ _ _
  · rw [heq]; exact TSMap.get?_insert_self _ _ _
  · rw [heq]

/-- Witness for C1 at the empty row with the sample (36300, 100). -/
theorem c1_witness :
    sortedKeys TimeSeriesRow.default.raw_data ∧
    ∃ ch cd cw,
      bucketKey truncate_to_hour (TSMap.insert TimeSeriesRow.default.raw_data 36300 100) = some ch ∧
      bucketKey truncate_to_day (TSMap.insert TimeSeriesRow.default.raw_data 36300 100) = some cd ∧
      bucketKey truncate_to_week (TSMap.insert TimeSeriesRow.default.raw_data 36300 100) = some cw ∧
      (TimeSeriesRow.default.append 36300 100).hourly_data =
        TSMap.insert TimeSeriesRow.default.hourly_data ch
          (Statistics.from_points
            (bucketPoints truncate_to_hour (TSMap.insert TimeSeriesRow.default.raw_data 36300 100) ch)) ∧
      (TimeSeriesRow.default.append 36300 100).daily_data =
        TSMap.insert TimeSeriesRow.default.daily_data cd
          (Statistics.from_points
            (bucketPoints truncate_to_day (TSMap.insert TimeSeriesRow.default.raw_data 36300 100) cd)) ∧
      (TimeSeriesRow.default.append 36300 100).weekly_data =
        TSMap.insert TimeSeriesRow.default.weekly_data cw
          (Statistics.from_points
            (bucketPoints truncate_to_week (TSMap.insert TimeSeriesRow.default.raw_data 36300 100) cw)) ∧
      TSMap.get? (TimeSeriesRow.default.append 36300 100).hourly_data ch =
        some (Statistics.from_points
          (bucketPoints truncate_to_hour (TSMap.insert TimeSeriesRow.default.raw_data 36300 100) ch)) ∧
      TSMap.get? (TimeSeriesRow.default.append 36300 100).daily_data cd =
        some (Statistics.from_points
          (bucketPoints truncate_to_day (TSMap.insert TimeSeriesRow.default.raw_data 36300 100) cd)) ∧
      TSMap.get? (TimeSeriesRow.default.append 36300 100).weekly_data cw =
        some (Statistics.from_points
          (bucketPoints truncate_to_week (TSMap.insert TimeSeriesRow.default.raw_data 36300 100) cw)) ∧
      (TimeSeriesRow.default.append 36300 100).raw_data =
        TSMap.insert TimeSeriesRow.default.raw_data 36300 100 :=
  ⟨by decide, c1_append_recomputes_current_bucket TimeSeriesRow.default 36300 100 (by decide)⟩

/-- Claim C4: `append` changes at most one entry per rollup store (the one at the
current maximum-truncation key): a lookup at any other key is unchanged.  In
particular, appending 10:05→100, 10:40→200, 10:58→300 and then 11:02→400
(instants in seconds after midnight) leaves the 10:00 hour bucket at
{count 3, average 200, min 100, max 300} and creates an 11:00 bucket
{count 1, average 400, min 400, max 400}. -/
theorem c4_append_frame :
    (∀ (row : TimeSeriesRow) (dt v k : Int),
      bucketKey truncate_to_hour (TSMap.insert row.raw_data dt v) ≠ some k →
      TSMap.get? (row.append dt v).hourly_data k = TSMap.get? row.hourly_data k) ∧
    (∀ (row : TimeSeriesRow) (dt v k : Int),
      bucketKey truncate_to_day (TSMap.insert row.raw_data dt v) ≠ some k →
      TSMap.get? (row.append dt v).daily_data k = TSMap.get? row.daily_data k) ∧
    (∀ (row : TimeSeriesRow) (dt v k : Int),
      bucketKey truncate_to_week (TSMap.insert row.raw_data dt v) ≠ some k →
      TSMap.get? (row.append dt v).weekly_data k = TSMap.get? row.weekly_data k) ∧
    TSMap.get?
        ((((TimeSeriesRow.default.append 36300 100).append 38400 200).append 39480 300).hourly_data)
        36000 = some { average := 200, count := 3, max := some 300, min := some 100 } ∧
    TSMap.get?
        (((((TimeSeriesRow.default.append 36300 100).append 38400 200).append 39480 300).append 39720 400).hourly_data)
        36000 = some { average := 200, count := 3, max := some 300, min := some 100 } ∧
    TSMap.get?
        (((((TimeSeriesRow.default.append 36300 100).append 38400 200).append 39480 300).append 39720 400).hourly_data)
        39600 = some { average := 400, count := 1, max := some 400, min := some 400 } := by
  refine ⟨?_, ?_, ?_, by decide, by decide, by decide⟩
  · intro row dt v k hk
    obtain ⟨ch, sh, cd, sd, cw, sw, hch, hcd, hcw, heq⟩ := append_parts row dt v
    rw [heq]
    exact TSMap.get?_insert_ne _ _ _ _ (fun he => hk (by rw [he]; exact hch))
  · intro row dt v k hk
    obtain ⟨ch, sh, cd, sd, cw, sw, hch, hcd, hcw, heq⟩ := append_parts row dt v
    rw [heq]
    exact TSMap.get?_insert_ne _ _ _ _ (fun he => hk (by rw [he]; exact hcd))
  · intro row dt v k hk
    obtain ⟨ch, sh, cd, sd, cw, sw, hch, hcd, hcw, heq⟩ := append_parts row dt v
    rw [heq]
    exact TSMap.get?_insert_ne _ _ _ _ (fun he => hk (by rw [he]; exact hcw))

/-- Witness for C4: at the empty row, appending (36300, 100) leaves the
lookup at the unrelated key 0 unchanged. -/
theorem c4_witness :
    bucketKey truncate_to_hour (TSMap.insert TimeSeriesRow.default.raw_data 36300 100) ≠ some 0 ∧
    TSMap.get? (TimeSeriesRow.default.append 36300 100).hourly_data 0 =
      TSMap.get? TimeSeriesRow.default.hourly_data 0 :=
  ⟨by decide, c4_append_frame.1 TimeSeriesRow.default 36300 100 0 (by decide)⟩

/-- Claim C7: `summary` is a pure read (a function of the row that returns no
modified row), and its `last_24h` field is exactly the hourly rollup entries
whose bucket key is at least `now - 24h`, each mapped to its average, with
keys in strictly ascending time order; a lookup of any key older than the
window returns nothing, and of any key inside the window returns that hourly
bucket's average. -/
theorem c7_summary_window (row : TimeSeriesRow) (now : Int)
    (h : sortedKeys row.hourly_data) :
    (row.summary now).last_24h =
      (row.hourly_data.filter (fun p => now - 86400 ≤ p.1)).map
        (fun p => (p.1, p.2.average)) ∧
    sortedKeys (row.summary now).last_24h ∧
    (∀ k, TSMap.get? (row.summary now).last_24h k =
      if now - 86400 ≤ k
      then Option.map Statistics.average (TSMap.get? row.hourly_data k)
      else none) := by
  have h1 : (row.summary now).last_24h =
      (row.hourly_data.filter (fun p => now - 86400 ≤ p.1)).map
        (fun p => (p.1, p.2.average)) := by
    show collectMap (row.hourly_data.filterMap
      (fun p => if now - 86400 ≤ p.1 then some (p.1, p.2.average) else none)) = _
    rw [filterMap_window]
    exact collectMap_eq_self _ (sorted_map_avg row.hourly_data (now - 86400) h)
  refine ⟨h1, ?_, ?_⟩
  · rw [h1]
    exact sorted_map_avg row.hourly_data (now - 86400) h
  · intro k
    rw [h1, get?_map_val, get?_filter_ge]
    by_cases hk : now - 86400 ≤ k
    · rw [if_pos hk, if_pos hk]
    · rw [if_neg hk, if_neg hk]
      rfl

/-- Witness for C7 at a concrete two-bucket hourly store and now = 100000. -/
theorem c7_witness :
    sortedKeys (TimeSeriesRow.mk []
      [(0, Statistics.mk 100 1 (some 100) (some 100)),
       (90000, Statistics.mk 7 2 (some 9) (some 5))] [] []).hourly_data ∧
    TSMap.get?
        ((TimeSeriesRow.mk []
          [(0, Statistics.mk 100 1 (some 100) (some 100)),
           (90000, Statistics.mk 7 2 (some 9) (some 5))] [] []).summary 100000).last_24h
        90000 =
      (if (100000 : Int) - 86400 ≤ 90000
       then Option.map Statistics.average
         (TSMap.get?
           (TimeSeriesRow.mk []
             [(0, Statistics.mk 100 1 (some 100) (some 100)),
              (90000, Statistics.mk 7 2 (some 9) (some 5))] [] []).hourly_data 90000)
       else none) :=
  ⟨by decide, (c7_summary_window _ 100000 (by decide)).2.2 90000⟩

/-- Claim C8, counterexample: the current bucket does NOT always contain the
just-inserted point.  With raw series {100000 → 1}, appending the
out-of-order sample (0, 2) yields raw {0 → 2, 100000 → 1}; the current hour
bucket is 97200 (the truncation of 100000), its point set is exactly [1],
and the just-inserted point (0, 2) — whose hour truncates to 0, not 97200 —
is excluded from it. -/
theorem c8_counterexample :
    bucketKey truncate_to_hour (TSMap.insert [((100000 : Int), (1 : Int))] 0 2) =
      some 97200 ∧
    (currentValuesMap truncate_to_hour
        (TSMap.insert [((100000 : Int), (1 : Int))] 0 2) 97200).map (fun p => p.2) =
      [1] ∧
    ((0 : Int), (2 : Int)) ∉
      currentValuesMap truncate_to_hour (TSMap.insert [((100000 : Int), (1 : Int))] 0 2) 97200 ∧
    truncate_to_hour 0 ≠ 97200 := by
  decide

/-- Claim C8 (amended): `aggregate_generic` only invokes
`Statistics::from_points` on a non-empty list of values (so the `sum / count`
division never divides by zero): whenever the raw series is non-empty a
current bucket exists and its value list is non-empty; and inside `append`
the raw series handed to the aggregation step always contains at least the
just-inserted point, hence is non-empty — although the current bucket itself
need not contain that point when the append is out-of-order. -/
theorem c8_nonempty_guarantee :
    (∀ (f : Int → Int) (raw : List (Int × Int)), raw ≠ [] →
      ∃ c, bucketKey f raw = some c ∧
        (currentValuesMap f raw c).map (fun p => p.2) ≠ [] ∧
        aggregate_generic f raw =
          some (c, Statistics.from_points
            ((currentValuesMap f raw c).map (fun p => p.2)))) ∧
    (∀ (row : TimeSeriesRow) (dt v : Int), TSMap.insert row.raw_data dt v ≠ []) := by
  constructor
  · intro f raw hne
    obtain ⟨c, hc, hagg⟩ := aggregate_generic_eq_some f raw hne
    exact ⟨c, hc, currentValuesMap_ne_nil f raw c hc, hagg⟩
  · intro row dt v
    exact TSMap.insert_ne_nil _ _ _

/-- Witness for C8 at the one-point raw series [(0, 5)]. -/
theorem c8_witness :
    ([((0 : Int), (5 : Int))] : List (Int × Int)) ≠ [] ∧
    ∃ c, bucketKey truncate_to_hour [((0 : Int), (5 : Int))] = some c ∧
      (currentValuesMap truncate_to_hour [((0 : Int), (5 : Int))] c).map (fun p => p.2) ≠ [] ∧
      aggregate_generic truncate_to_hour [((0 : Int), (5 : Int))] =
        some (c, Statistics.from_points
          ((currentValuesMap truncate_to_hour [((0 : Int), (5 : Int))] c).map (fun p => p.2))) :=
  ⟨by decide, c8_nonempty_guarantee.1 truncate_to_hour [(0, 5)] (by decide)⟩

/-- Claim C9: modelling each lock-guarded critical section as one atomic step (one
exclusive acquisition per `update_state`, one shared acquisition per
`history`), every state a reader can observe has all four series built from
exactly the same sequence of sample instants: their raw key lists coincide,
so no summary mixes metrics from sample k with metrics from sample k+1. -/
theorem c9_bundle_atomic (st : AppStateM) (h : Reachable st) :
    st.time_series.pv_mw.raw_data.map Prod.fst =
      st.time_series.grid_mw.raw_data.map Prod.fst ∧
    st.time_series.pv_mw.raw_data.map Prod.fst =
      st.time_series.load_mw.raw_data.map Prod.fst ∧
    st.time_series.pv_mw.raw_data.map Prod.fst =
      st.time_series.storage_mw.raw_data.map Prod.fst := by
  induction h with
  | init => exact ⟨rfl, rfl, rfl⟩
  | step st s hst ih =>
      obtain ⟨ih1, ih2, ih3⟩ := ih
      unfold AppStateM.update_state
      rcases hlu : s.last_update with _ | dt
      · exact ⟨ih1, ih2, ih3⟩
      · refine ⟨?_, ?_, ?_⟩
        · show ((st.time_series.pv_mw.append dt s.pv_mw).raw_data).map Prod.fst =
            ((st.time_series.grid_mw.append dt s.grid_mw).raw_data).map Prod.fst
          rw [append_raw_data, append_raw_data, keys_insert, keys_insert, ih1]
        · show ((st.time_series.pv_mw.append dt s.pv_mw).raw_data).map Prod.fst =
            ((st.time_series.load_mw.append dt s.load_mw).raw_data).map Prod.fst
          rw [append_raw_data, append_raw_data, keys_insert, keys_insert, ih2]
        · show ((st.time_series.pv_mw.append dt s.pv_mw).raw_data).map Prod.fst =
            ((st.time_series.storage_mw.append dt s.storage_mw).raw_data).map Prod.fst
          rw [append_raw_data, append_raw_data, keys_insert, keys_insert, ih3]

/-- Witness for C9: the state after one ingest of a timestamped sample is
reachable and satisfies the invariant. -/
theorem c9_witness :
    Reachable (AppStateM.initial.update_state
      (SystemState.mk (some 100) 0 1 2 3 4 0 0)) ∧
    (AppStateM.initial.update_state
        (SystemState.mk (some 100) 0 1 2 3 4 0 0)).time_series.pv_mw.raw_data.map Prod.fst =
      (AppStateM.initial.update_state
        (SystemState.mk (some 100) 0 1 2 3 4 0 0)).time_series.grid_mw.raw_data.map Prod.fst :=
  ⟨Reachable.step _ _ Reachable.init,
    (c9_bundle_atomic _ (Reachable.step _ _ Reachable.init)).1⟩

/-- Claim C10: if the fetched `SystemState` carries no `last_update` timestamp,
`update_state` is a complete no-op: the whole application state (all four
series with their rollups, and the stored current `SystemState`) is
unchanged. -/
theorem c10_update_state_noop (st : AppStateM) (new_state : SystemState)
    (h : new_state.last_update = none) : st.update_state new_state = st := by
  unfold AppStateM.update_state
  rw [h]

/-- Witness for C10: dropping a sample with values but no timestamp leaves
the initial state untouched. -/
theorem c10_witness :
    (SystemState.mk none 5 1 2 3 4 6 7).last_update = none ∧
    AppStateM.initial.update_state (SystemState.mk none 5 1 2 3 4 6 7) =
      AppStateM.initial :=
  ⟨rfl, c10_update_state_noop AppStateM.initial _ rfl⟩
